import Mathlib

/-!
Verification of the OKX flexible-loan monitor core against its
natural-language specification.

The repository contains several near-duplicate Python variants.  The
definitions below are shallow embeddings of the concrete source
functions, one namespace per variant:

* `Kimi`   — `src/kimi/okx_requests_version.py` (identical resolver code
  also appears in `src/okx_requests_version_k.py`);
* `DS`     — `src/deepseek/okx_requests_version.py`;
* `Main`   — `src/okx_requests_version.py` (the classifier and
  snapshot code of `src/claude/okx_requests_version.py` is embedded
  here as well, since the relevant lines coincide).

Prices and LTV values are modelled as rationals (`ℚ`); timestamps as
naturals.  A Python `dict` is modelled as an association list with
insert-or-replace update, a raised exception as `Option.none`.
-/

/-- Lookup in an association list modelling a Python `dict`
(`d[k]` / `k in d`). -/
def lookupA (l : List (String × ℚ)) (c : String) : Option ℚ :=
  (l.find? (fun kv => kv.1 = c)).map (fun kv => kv.2)

/-- Insert-or-replace update of an association list modelling a Python
`dict` assignment `d[k] = v`. -/
def updateA : List (String × ℚ) → String → ℚ → List (String × ℚ)
  | [], c, p => [(c, p)]
  | kv :: t, c, p => if kv.1 = c then (c, p) :: t else kv :: updateA t c p

namespace Kimi

/-- The stablecoin set of `get_usd_ticker_prices_optimized`
(`src/kimi/okx_requests_version.py:196`):
`{'USDT', 'USDC', 'USD', 'BUSD', 'DAI', 'USDP'}`.  Note that `TUSD`
is not a member. -/
def stablecoins : List String := ["USDT", "USDC", "USD", "BUSD", "DAI", "USDP"]

/-- Ticker-map construction of `get_all_tickers`
(`src/kimi/okx_requests_version.py:182-188`): every raw
`(instId, last)` entry with a positive price is inserted into the map. -/
def get_all_tickers (raw : List (String × ℚ)) : List (String × ℚ) :=
  raw.foldl (fun acc t => if 0 < t.2 then updateA acc t.1 t.2 else acc) []

/-- The quote order produced by
`sorted(usd_quote_currencies, key=lambda x: x == 'USD', reverse=True)`
(`src/kimi/okx_requests_version.py:218`), where `usd_quote_currencies`
is the Python set `{'USDT', 'USDC', 'USD'}`.  Python's sort is stable,
also with `reverse=True`, so the result is the elements whose key is
`True` (exactly `'USD'`) followed by the others in set-iteration
order.  `so` is the (unspecified) iteration order of the set. -/
def sortedQuotes (so : List String) : List String :=
  so.filter (fun q => q = "USD") ++ so.filter (fun q => ¬ q = "USD")

/-- One step of the stablecoin pass: enter the currency at price 1.0
when it is a stablecoin. -/
def stableStep (acc : List (String × ℚ)) (c : String) : List (String × ℚ) :=
  if c ∈ stablecoins then updateA acc c 1 else acc

/-- Phase 1 of `get_usd_ticker_prices_optimized`
(`src/kimi/okx_requests_version.py:199-201`): stablecoins are entered
with price 1.0. -/
def stablePass (currencies : List String) : List (String × ℚ) :=
  currencies.foldl stableStep []

/-- The per-currency quote scan of `get_usd_ticker_prices_optimized`
(`src/kimi/okx_requests_version.py:218-229`): try each quote currency
in the sorted order, take the first instrument present in the ticker
map, otherwise fall back to the 0.0 sentinel. -/
def resolveOne (allTickers : List (String × ℚ)) (so : List String)
    (c : String) : ℚ :=
  match (sortedQuotes so).findSome?
      (fun q => lookupA allTickers (c ++ "-" ++ q)) with
  | some p => p
  | none => 0

/-- One step of the non-stable resolution loop
(`src/kimi/okx_requests_version.py:211-229`): skip currencies already
priced, otherwise record the quote-scan result. -/
def resolveStep (allTickers : List (String × ℚ)) (so : List String)
    (acc : List (String × ℚ)) (c : String) : List (String × ℚ) :=
  if (lookupA acc c).isSome then acc
  else updateA acc c (resolveOne allTickers so c)

/-- `get_usd_ticker_prices_optimized` main loop
(`src/kimi/okx_requests_version.py:193-231`): stablecoins at 1.0, then
each remaining currency resolved from the batch ticker map via
`resolveOne`. -/
def get_usd_ticker_prices_optimized (allTickers : List (String × ℚ))
    (so : List String) (currencies : List String) : List (String × ℚ) :=
  (currencies.filter (fun c => c ∉ stablecoins)).foldl
    (resolveStep allTickers so) (stablePass currencies)

end Kimi

namespace DS

/-- One row of the durable SQLite `price_cache` table
(`src/deepseek/okx_requests_version.py:30-37`):
`(currency PRIMARY KEY, price, timestamp, expires_at)`.  The
`timestamp` column is never read back, so it is omitted. -/
structure StoreEntry where
  ccy : String
  price : ℚ
  expiresAt : ℕ
deriving DecidableEq, Repr

/-- `PriceCache.get` (`src/deepseek/okx_requests_version.py:42-50`):
`SELECT price FROM price_cache WHERE currency = ? AND expires_at > ?`.
An expired or missing key returns `none`. -/
def storeGet (store : List StoreEntry) (c : String) (now : ℕ) : Option ℚ :=
  match store.find? (fun e => e.ccy = c) with
  | some e => if now < e.expiresAt then some e.price else none
  | none => none

/-- `PriceCache.set` (`src/deepseek/okx_requests_version.py:52-64`):
`INSERT OR REPLACE` keyed on the currency, `expires_at = now + ttl`. -/
def storeSet : List StoreEntry → String → ℚ → ℕ → List StoreEntry
  | [], c, p, e => [⟨c, p, e⟩]
  | x :: t, c, p, e => if x.ccy = c then ⟨c, p, e⟩ :: t else x :: storeSet t c p e

/-- `PriceCache.set_batch` (`src/deepseek/okx_requests_version.py:66-79`):
one `INSERT OR REPLACE` per key, all with the same `expires_at`. -/
def storeSetBatch (store : List StoreEntry) (prices : List (String × ℚ))
    (e : ℕ) : List StoreEntry :=
  prices.foldl (fun s kv => storeSet s kv.1 kv.2 e) store

/-- The mutable resolver state: durable store plus the in-memory
session cache `self.price_cache` / `self.cache_timestamp`
(`src/deepseek/okx_requests_version.py:107-108`). -/
structure DSState where
  store : List StoreEntry
  sessionMap : List (String × ℚ)
  sessionTime : ℕ
deriving Repr

/-- The network collaborator: `pages n` is the parsed body of the
batch `/market/tickers` request for page `n` (`some` of the ticker
list when `code == '0'` and `data` is present, `none` for a transport
or application failure), and `individual i` is the `last` price of the
single-instrument `/market/ticker` request for instrument `i` when it
succeeds with data. -/
structure DSEnv where
  pages : ℕ → Option (List (String × ℚ))
  individual : String → Option ℚ

/-- `self.CACHE_DURATION = 30` (`src/deepseek/okx_requests_version.py:109`). -/
def CACHE_DURATION : ℕ := 30

/-- The session-cache freshness test of `get_all_usd_pairs`
(`src/deepseek/okx_requests_version.py:177`):
`self.price_cache and (current_time - self.cache_timestamp) < self.CACHE_DURATION`. -/
def sessionFresh (st : DSState) (now : ℕ) : Prop :=
  st.sessionMap ≠ [] ∧ now - st.sessionTime < CACHE_DURATION

instance (st : DSState) (now : ℕ) : Decidable (sessionFresh st now) := by
  unfold sessionFresh; infer_instance

/-- `usd_quotes = ['USDT', 'USDC', 'USD']`
(`src/deepseek/okx_requests_version.py:183,297`). -/
def usdQuotes : List String := ["USDT", "USDC", "USD"]

/-- `stablecoins = ['USDT', 'USDC', 'USD', 'BUSD', 'DAI', 'USDP']`
(`src/deepseek/okx_requests_version.py:184`).  `TUSD` is not a member. -/
def stablecoins : List String := ["USDT", "USDC", "USD", "BUSD", "DAI", "USDP"]

/-- The quote-suffix test of the batch loop
(`src/deepseek/okx_requests_version.py:213-216`): find the first quote
in `usd_quotes` such that `inst_id` ends with `-quote`, and strip that
suffix.  At most one of the three suffixes can match. -/
def quoteSuffix (instId : String) : Option (String × String) :=
  usdQuotes.findSome?
    (fun q => if instId.endsWith ("-" ++ q)
              then some (instId.dropRight (q.length + 1), q) else none)

/-- Processing of one batch ticker
(`src/deepseek/okx_requests_version.py:207-225`): a USD-quoted pair
with a positive price is entered if the base currency is new or the
quote is `USDT` (the `# Prefer USDT` rule). -/
def processTicker (acc : List (String × ℚ)) (t : String × ℚ) :
    List (String × ℚ) :=
  match quoteSuffix t.1 with
  | some (base, q) =>
      if 0 < t.2 ∧ (lookupA acc base = none ∨ q = "USDT")
      then updateA acc base t.2 else acc
  | none => acc

/-- The paged batch fetch loop of `get_all_usd_pairs`
(`src/deepseek/okx_requests_version.py:191-235`): up to `max_pages = 5`
requests; a failed request or an empty data list stops the loop.  The
second component counts the network requests made. -/
def fetchPages (env : DSEnv) : ℕ → ℕ → List (String × ℚ) → ℕ →
    List (String × ℚ) × ℕ
  | 0, _, acc, cnt => (acc, cnt)
  | fuel + 1, page, acc, cnt =>
      match env.pages page with
      | some ts =>
          if ts.isEmpty then (acc, cnt + 1)
          else fetchPages env fuel (page + 1) (ts.foldl processTicker acc) (cnt + 1)
      | none => (acc, cnt + 1)

/-- `get_all_usd_pairs` (`src/deepseek/okx_requests_version.py:172-246`):
return the session cache if fresh; otherwise preload stablecoins at
1.0, run the paged batch fetch, write the whole map back to the
durable store (TTL 300) and into the session cache.  Returns the map,
the new state and the number of network requests. -/
def get_all_usd_pairs (env : DSEnv) (st : DSState) (now : ℕ) :
    List (String × ℚ) × DSState × ℕ :=
  if sessionFresh st now then (st.sessionMap, st, 0)
  else
    let init := stablecoins.foldl (fun acc s => updateA acc s 1) []
    let fp := fetchPages env 5 1 init 0
    let store1 := storeSetBatch st.store fp.1 (now + 300)
    (fp.1, ⟨store1, fp.1, now⟩, fp.2)

/-- The per-quote individual lookup loop
(`src/deepseek/okx_requests_version.py:304-325`): one request per
quote currency, stopping at the first positive price.  Returns the
price found (if any) and the number of requests made. -/
def individualGo (env : DSEnv) (c : String) : List String → ℕ → Option ℚ × ℕ
  | [], cnt => (none, cnt)
  | q :: qs, cnt =>
      match env.individual (c ++ "-" ++ q) with
      | some p => if 0 < p then (some p, cnt + 1) else individualGo env c qs (cnt + 1)
      | none => individualGo env c qs (cnt + 1)

/-- Accumulator of the individual-lookup phase: the price map, the
durable store, and the running request count. -/
structure IndState where
  prices : List (String × ℚ)
  store : List StoreEntry
  cnt : ℕ

/-- The `still_missing` loop of `get_usd_ticker_prices`
(`src/deepseek/okx_requests_version.py:294-329`): each still-missing
currency is looked up individually; a positive hit is written to the
map and the durable store (TTL 300), otherwise the 0.0 sentinel is
assigned. -/
def indStep (env : DSEnv) (now : ℕ) (s : IndState) (c : String) : IndState :=
  if (lookupA s.prices c).isSome then s
  else
    match individualGo env c usdQuotes 0 with
    | (some p, k) =>
        ⟨updateA s.prices c p, storeSet s.store c p (now + 300), s.cnt + k⟩
    | (none, k) => ⟨updateA s.prices c 0, s.store, s.cnt + k⟩

/-- The `still_missing` fold of `get_usd_ticker_prices`
(`src/deepseek/okx_requests_version.py:294-329`). -/
def individualPhase (env : DSEnv) (now : ℕ) (stillMissing : List String)
    (s0 : IndState) : IndState :=
  stillMissing.foldl (indStep env now) s0

/-- Phase 1 of `get_usd_ticker_prices`
(`src/deepseek/okx_requests_version.py:259-265`): each requested
currency is first looked up in the durable store; hits go into the
price map, misses into `missing_currencies`. -/
def storeStep (store : List StoreEntry) (now : ℕ)
    (pm : List (String × ℚ) × List String) (c : String) :
    List (String × ℚ) × List String :=
  match storeGet store c now with
  | some p => (updateA pm.1 c p, pm.2)
  | none => (pm.1, pm.2 ++ [c])

/-- The phase-1 fold over the requested currencies. -/
def storePhase (store : List StoreEntry) (now : ℕ) (currencies : List String) :
    List (String × ℚ) × List String :=
  currencies.foldl (storeStep store now) ([], [])

/-- The batch-matching loop of `get_usd_ticker_prices`
(`src/deepseek/okx_requests_version.py:277-285`): split the missing
currencies into those found in the batch map and those still missing. -/
def batchStep (allPairs : List (String × ℚ))
    (acc : List (String × ℚ) × List String × List String) (c : String) :
    List (String × ℚ) × List String × List String :=
  match lookupA allPairs c with
  | some p => (updateA acc.1 c p, acc.2.1 ++ [c], acc.2.2)
  | none => (acc.1, acc.2.1, acc.2.2 ++ [c])

/-- The batch-matching fold over the missing currencies. -/
def batchMatch (allPairs : List (String × ℚ)) (missing : List String)
    (prices0 : List (String × ℚ)) :
    List (String × ℚ) × List String × List String :=
  missing.foldl (batchStep allPairs) (prices0, [], [])

/-- Result of one resolver invocation: the price map, the state after
the call, and the number of network requests performed. -/
structure ResolveResult where
  prices : List (String × ℚ)
  state : DSState
  fetches : ℕ
deriving Repr

/-- `get_usd_ticker_prices` (`src/deepseek/okx_requests_version.py:248-331`):
durable store first; then, for the missing currencies, the batch map
from `get_all_usd_pairs` (with the newly found prices written back to
the store); then individual lookups; the 0.0 sentinel for anything
left. -/
def get_usd_ticker_prices (env : DSEnv) (st : DSState) (now : ℕ)
    (currencies : List String) : ResolveResult :=
  let pm := storePhase st.store now currencies
  if pm.2.isEmpty then ⟨pm.1, st, 0⟩
  else
    let ap := get_all_usd_pairs env st now
    let bm := batchMatch ap.1 pm.2 pm.1
    let store2 :=
      if bm.2.1.isEmpty then ap.2.1.store
      else storeSetBatch ap.2.1.store
        (bm.2.1.map (fun c => (c, (lookupA bm.1 c).getD 0))) (now + 300)
    if bm.2.2.isEmpty then ⟨bm.1, ⟨store2, ap.2.1.sessionMap, ap.2.1.sessionTime⟩, ap.2.2⟩
    else
      let fin := individualPhase env now bm.2.2 ⟨bm.1, store2, ap.2.2⟩
      ⟨fin.prices, ⟨fin.store, ap.2.1.sessionMap, ap.2.1.sessionTime⟩, fin.cnt⟩

end DS

namespace Main

/-- The five risk labels produced by the classification code
(`save_snapshot`, `src/claude/okx_requests_version.py:85-94`, and the
`display_combined_metrics` risk block of every variant). -/
inductive RiskTier where
  | SAFE | CAUTION | WARNING | HIGH_RISK | MARGIN_CALL
deriving DecidableEq, Repr

/-- The threshold cascade shared by `save_snapshot`
(`src/claude/okx_requests_version.py:85-94`) and the display paths
(`src/okx_requests_version.py:247-256`): compare `margin_call_pct`
against 70 / 85 / 95, then `current_ltv < margin_call_ltv`. -/
def tierOfPct (pct cur mc : ℚ) : RiskTier :=
  if pct < 70 then .SAFE
  else if pct < 85 then .CAUTION
  else if pct < 95 then .WARNING
  else if cur < mc then .HIGH_RISK
  else .MARGIN_CALL

/-- The risk classification of `save_snapshot`
(`src/claude/okx_requests_version.py:79-94`):
`margin_call_pct = (current_ltv / margin_call_ltv) * 100 if margin_call_ltv > 0 else 0`,
then the threshold cascade. -/
def save_snapshot_risk (cur mc : ℚ) : RiskTier :=
  let pct := if 0 < mc then cur / mc * 100 else 0
  tierOfPct pct cur mc

/-- The risk block of `display_combined_metrics`
(`src/okx_requests_version.py:243-256`, identically in the claude,
kimi and deepseek variants): the division
`(current_ltv / margin_call_ltv) * 100` is not guarded, so
`margin_call_ltv = 0` raises `ZeroDivisionError` — modelled as `none`. -/
def display_risk (cur mc : ℚ) : Option RiskTier :=
  if mc = 0 then none
  else some (tierOfPct (cur / mc * 100) cur mc)

/-- Numeric JSON fields consumed by `calculate_account_metrics`: the
field is absent (`.get(key, '0')` yields `'0'`), the empty string, or
a well-formed numeric string with value `q`. -/
inductive JNum where
  | missing | empty | num (q : ℚ)
deriving DecidableEq

/-- The coercion applied to each such field
(`src/okx_requests_version.py:186-199`):
`float(v) if v and v != '' else 0.0`, after `.get(key, '0')`.  An
absent field defaults to the string `'0'` and parses to 0; the empty
string is caught by the explicit emptiness check and coerced to 0. -/
def coerceNum : JNum → ℚ
  | .missing => 0
  | .empty => 0
  | .num q => q

/-- A parsed OKX response body: the `code` field and the `data` array
(`§6 of the spec; every `_request` result has this shape). -/
structure ApiResp (α : Type) where
  code : String
  data : List α

/-- One entry of the balance `details` array. -/
structure BalDetail where
  ccy : String
  eq : JNum
  availEq : JNum

/-- The first element of the balance `data` array. -/
structure BalData where
  totalEq : JNum
  details : List BalDetail

/-- One entry of the output `currencies` list of
`calculate_account_metrics`. -/
structure CurrencyEntry where
  currency : String
  equity : ℚ
  available : ℚ
deriving DecidableEq

/-- The output of `calculate_account_metrics`: always a record with
both a `total_equity_usd` and a `currencies` field. -/
structure AccountMetrics where
  total_equity_usd : ℚ
  currencies : List CurrencyEntry
deriving DecidableEq

/-- `calculate_account_metrics` (`src/okx_requests_version.py:172-208`,
identical in all variants): default metrics on a non-`'0'` code or
empty data; otherwise the coerced `totalEq`, and one `currencies`
entry per detail whose coerced equity is strictly positive. -/
def calculate_account_metrics (resp : ApiResp BalData) : AccountMetrics :=
  if resp.code ≠ "0" then ⟨0, []⟩
  else
    match resp.data with
    | [] => ⟨0, []⟩
    | d :: _ =>
        ⟨coerceNum d.totalEq,
         (d.details.filter (fun det => 0 < coerceNum det.eq)).map
           (fun det => ⟨det.ccy, coerceNum det.eq, coerceNum det.availEq⟩)⟩

/-- One `{ccy, amt}` item of `collateralData` / `loanData`. -/
structure LoanItem where
  ccy : String
  amt : ℚ
deriving DecidableEq

/-- The single record of a successful loan-info response
(`§6 of the spec / `parse_loan_info` field reads). -/
structure LoanInfoData where
  collateralData : List LoanItem
  loanData : List LoanItem
  collateralNotionalUsd : ℚ
  loanNotionalUsd : ℚ
  curLTV : ℚ
  marginCallLTV : ℚ
  liqLTV : ℚ

/-- One entry of the output `collateral_assets` list. -/
structure CollateralAsset where
  currency : String
  amount : ℚ
  usd_value : ℚ
  price : ℚ
deriving DecidableEq

/-- The `loan_metrics` dict built by `parse_loan_info`
(`src/okx_requests_version.py:93-102`). -/
structure LoanMetrics where
  has_loan : Bool
  collateral_usd : ℚ
  loan_usd : ℚ
  current_ltv : ℚ
  margin_call_ltv : ℚ
  liquidation_ltv : ℚ
  collateral_assets : List CollateralAsset
  loan_assets : List LoanItem
deriving DecidableEq

/-- The initial all-zero / all-empty `loan_metrics` dict
(`src/okx_requests_version.py:93-102`). -/
def emptyLoanMetrics : LoanMetrics :=
  ⟨false, 0, 0, 0, 0, 0, [], []⟩

/-- Splitting `inst_id.split('-', 1)` into base and quote
(`src/okx_requests_version.py:121-122`): everything before the first
dash and everything after it; `none` when the id has no dash. -/
def splitFirstDash (s : String) : Option (String × String) :=
  match s.splitOn "-" with
  | [] => none
  | [_] => none
  | b :: rest => some (b, String.intercalate "-" rest)

/-- The ticker price map of `parse_loan_info`
(`src/okx_requests_version.py:115-132`): for every USD-quoted pair
with positive price the FIRST valid price per base currency wins;
afterwards the stablecoins (`USDT, USDC, USD, DAI, TUSD, BUSD`) are
overwritten to 1.0. -/
def buildPrices (tickers : Option (ApiResp (String × ℚ))) : List (String × ℚ) :=
  let fromTickers :=
    match tickers with
    | some td =>
        if td.code = "0" then
          td.data.foldl
            (fun (acc : List (String × ℚ)) (t : String × ℚ) =>
              match splitFirstDash t.1 with
              | some (base, quote) =>
                  if quote ∈ (["USDT", "USDC", "USD"] : List String) ∧ 0 < t.2
                     ∧ lookupA acc base = none
                  then updateA acc base t.2 else acc
              | none => acc)
            []
        else []
    | none => []
  (["USDT", "USDC", "USD", "DAI", "TUSD", "BUSD"] : List String).foldl
    (fun acc s => updateA acc s 1) fromTickers

/-- `parse_loan_info` (`src/okx_requests_version.py:91-170`): an
error code or an empty data array returns the zero metrics with
`has_loan = false`; otherwise `has_loan = true` and the collateral,
loan and LTV fields are populated (LTV fractions scaled by 100). -/
def parse_loan_info (resp : ApiResp LoanInfoData)
    (tickers : Option (ApiResp (String × ℚ))) : LoanMetrics :=
  if resp.code ≠ "0" then emptyLoanMetrics
  else
    match resp.data with
    | [] => emptyLoanMetrics
    | li :: _ =>
        let prices := buildPrices tickers
        { has_loan := true
          collateral_usd := li.collateralNotionalUsd
          loan_usd := li.loanNotionalUsd
          current_ltv := li.curLTV * 100
          margin_call_ltv := li.marginCallLTV * 100
          liquidation_ltv := li.liqLTV * 100
          collateral_assets :=
            (li.collateralData.filter (fun it => 0 < it.amt)).map
              (fun it =>
                let p := (lookupA prices it.ccy).getD 0
                ⟨it.ccy, it.amt, if 0 < p then it.amt * p else 0, p⟩)
          loan_assets := li.loanData.filter (fun it => 0 < it.amt) }

end Main

/-! ## Association-list lemmas -/

theorem lookupA_nil (d : String) : lookupA [] d = none := rfl

theorem lookupA_cons (kv : String × ℚ) (t : List (String × ℚ)) (d : String) :
    lookupA (kv :: t) d = if kv.1 = d then some kv.2 else lookupA t d := by
  by_cases h : kv.1 = d <;> simp [lookupA, List.find?, h]

theorem lookupA_updateA_self (l : List (String × ℚ)) (c : String) (p : ℚ) :
    lookupA (updateA l c p) c = some p := by
  induction l with
  | nil => simp [updateA, lookupA_cons, lookupA_nil]
  | cons kv t ih =>
      by_cases h : kv.1 = c
      · simp [updateA, h, lookupA_cons]
      · simp [updateA, h, lookupA_cons, ih]

theorem lookupA_updateA_ne (l : List (String × ℚ)) (c d : String) (p : ℚ)
    (h : c ≠ d) : lookupA (updateA l c p) d = lookupA l d := by
  induction l with
  | nil => simp [updateA, lookupA_cons, lookupA_nil, h]
  | cons kv t ih =>
      by_cases hk : kv.1 = c
      · rw [show updateA (kv :: t) c p = (c, p) :: t from by simp [updateA, hk]]
        rw [lookupA_cons, lookupA_cons, if_neg h, if_neg (hk ▸ h : kv.1 ≠ d)]
      · rw [show updateA (kv :: t) c p = kv :: updateA t c p from by
              simp [updateA, hk]]
        rw [lookupA_cons, lookupA_cons, ih]

/-! ## C4 / C5 — risk classifier -/

/-- C4.  For all non-negative `current_ltv` and positive
`margin_call_ltv` with `r = current_ltv / margin_call_ltv`, the risk
classifier returns SAFE iff `r < 0.70`, CAUTION iff `0.70 ≤ r < 0.85`,
WARNING iff `0.85 ≤ r < 0.95`, HIGH_RISK iff `r ≥ 0.95` and
`current_ltv < margin_call_ltv`, and MARGIN_CALL iff
`current_ltv ≥ margin_call_ltv`; moreover the display path computes
the same tier on this domain. -/
theorem claim_c4_classifier_boundaries (cur mc : ℚ) (hcur : 0 ≤ cur)
    (hmc : 0 < mc) :
    (Main.save_snapshot_risk cur mc = .SAFE ↔ cur / mc < 70 / 100)
    ∧ (Main.save_snapshot_risk cur mc = .CAUTION ↔
        70 / 100 ≤ cur / mc ∧ cur / mc < 85 / 100)
    ∧ (Main.save_snapshot_risk cur mc = .WARNING ↔
        85 / 100 ≤ cur / mc ∧ cur / mc < 95 / 100)
    ∧ (Main.save_snapshot_risk cur mc = .HIGH_RISK ↔
        95 / 100 ≤ cur / mc ∧ cur < mc)
    ∧ (Main.save_snapshot_risk cur mc = .MARGIN_CALL ↔ mc ≤ cur)
    ∧ Main.display_risk cur mc = some (Main.save_snapshot_risk cur mc) := by
  have hne : mc ≠ 0 := ne_of_gt hmc
  have e1 : Main.save_snapshot_risk cur mc
      = Main.tierOfPct (cur / mc * 100) cur mc := by
    unfold Main.save_snapshot_risk
    simp [hmc]
  have e2 : Main.display_risk cur mc
      = some (Main.tierOfPct (cur / mc * 100) cur mc) := by
    unfold Main.display_risk
    simp [hne]
  rw [e1, e2]
  set r := cur / mc with hr
  have c70 : r * 100 < 70 ↔ r < 70 / 100 := by constructor <;> intro h <;> linarith
  have c85 : r * 100 < 85 ↔ r < 85 / 100 := by constructor <;> intro h <;> linarith
  have c95 : r * 100 < 95 ↔ r < 95 / 100 := by constructor <;> intro h <;> linarith
  have cle : mc ≤ cur ↔ 1 ≤ r := (one_le_div hmc).symm
  unfold Main.tierOfPct
  split_ifs with h1 h2 h3 h4
  · rw [c70] at h1
    refine ⟨iff_of_true rfl h1, iff_of_false (by decide) ?_,
      iff_of_false (by decide) ?_, iff_of_false (by decide) ?_,
      iff_of_false (by decide) ?_, rfl⟩
    · rintro ⟨a, -⟩; linarith
    · rintro ⟨a, -⟩; linarith
    · rintro ⟨a, -⟩; linarith
    · rw [cle]; intro a; linarith
  · rw [c70] at h1
    rw [c85] at h2
    have h1x : 70 / 100 ≤ r := by linarith [not_lt.mp (fun hx => h1 hx)]
    refine ⟨iff_of_false (by decide) ?_,
      iff_of_true rfl ⟨h1x, h2⟩, iff_of_false (by decide) ?_,
      iff_of_false (by decide) ?_, iff_of_false (by decide) ?_, rfl⟩
    · intro a; linarith
    · rintro ⟨a, -⟩; linarith
    · rintro ⟨a, -⟩; linarith
    · rw [cle]; intro a; linarith
  · rw [c70] at h1
    rw [c85] at h2
    rw [c95] at h3
    have h2x : 85 / 100 ≤ r := by linarith [not_lt.mp (fun hx => h2 hx)]
    refine ⟨iff_of_false (by decide) ?_, iff_of_false (by decide) ?_,
      iff_of_true rfl ⟨h2x, h3⟩,
      iff_of_false (by decide) ?_, iff_of_false (by decide) ?_, rfl⟩
    · intro a; linarith
    · rintro ⟨-, a⟩; linarith
    · rintro ⟨a, -⟩; linarith
    · rw [cle]; intro a; linarith
  · rw [c95] at h3
    have h3x : 95 / 100 ≤ r := by linarith [not_lt.mp (fun hx => h3 hx)]
    refine ⟨iff_of_false (by decide) ?_, iff_of_false (by decide) ?_,
      iff_of_false (by decide) ?_, iff_of_true rfl ⟨h3x, h4⟩,
      iff_of_false (by decide) ?_, rfl⟩
    · intro a; linarith
    · rintro ⟨-, a⟩; linarith
    · rintro ⟨-, a⟩; linarith
    · exact not_le.mpr h4
  · rw [c95] at h3
    have h3x : 95 / 100 ≤ r := by linarith [not_lt.mp (fun hx => h3 hx)]
    have h4x : mc ≤ cur := le_of_not_lt h4
    refine ⟨iff_of_false (by decide) ?_, iff_of_false (by decide) ?_,
      iff_of_false (by decide) ?_, iff_of_false (by decide) ?_,
      iff_of_true rfl h4x, rfl⟩
    · intro a; linarith
    · rintro ⟨-, a⟩; linarith
    · rintro ⟨-, a⟩; linarith
    · rintro ⟨-, a⟩; exact h4 a

/-- Witness for C4 at the spec's own boundary example
`classify(95.0, 100)` with `current_ltv < margin_call_ltv`. -/
theorem claim_c4_classifier_boundaries_witness :
    (0:ℚ) ≤ 95 ∧ (0:ℚ) < 100
    ∧ (Main.save_snapshot_risk 95 100 = .HIGH_RISK ↔
        95 / 100 ≤ (95:ℚ) / 100 ∧ (95:ℚ) < 100) :=
  ⟨by norm_num, by norm_num,
    (claim_c4_classifier_boundaries 95 100 (by norm_num) (by norm_num)).2.2.2.1⟩

/-- C5.  The guarded snapshot classification path returns SAFE for
`margin_call_ltv = 0`, exactly as the claim states — but the
risk-classification path of `display_combined_metrics`, used when an
active loan is displayed, divides by `margin_call_ltv` without a
guard and raises `ZeroDivisionError` (modelled as `none`) on the same
input.  The claim's "guarded on every risk-classification path ...
and never raises" is therefore violated by the code. -/
theorem claim_c5_zero_divisor_evidence :
    Main.save_snapshot_risk 50 0 = .SAFE ∧ Main.display_risk 50 0 = none := by
  constructor
  · unfold Main.save_snapshot_risk Main.tierOfPct
    norm_num
  · unfold Main.display_risk
    norm_num

/-! ## C9 — parse_loan_info invariant -/

/-- C9.  A loan-info response whose code is not `"0"` or whose data
array is empty parses to `has_loan = false`; and whenever
`has_loan = false`, the result is exactly the all-zero / all-empty
metrics record. -/
theorem claim_c9_no_loan_zero_metrics (resp : Main.ApiResp Main.LoanInfoData)
    (tickers : Option (Main.ApiResp (String × ℚ))) :
    ((resp.code ≠ "0" ∨ resp.data = []) →
      (Main.parse_loan_info resp tickers).has_loan = false)
    ∧ ((Main.parse_loan_info resp tickers).has_loan = false →
      Main.parse_loan_info resp tickers = Main.emptyLoanMetrics) := by
  by_cases hc : resp.code = "0"
  · rcases hd : resp.data with - | ⟨li, rest⟩
    · constructor
      · intro _
        unfold Main.parse_loan_info
        simp [hc, hd, Main.emptyLoanMetrics]
      · intro _
        unfold Main.parse_loan_info
        simp [hc, hd]
    · constructor
      · rintro (h | h)
        · exact absurd hc h
        · simp [hd] at h
      · intro h
        unfold Main.parse_loan_info at h
        simp [hc, hd] at h
  · constructor
    · intro _
      unfold Main.parse_loan_info
      simp [hc, Main.emptyLoanMetrics]
    · intro _
      unfold Main.parse_loan_info
      simp [hc]

/-- Witness for C9: a response with error code `"1"` yields
`has_loan = false`. -/
theorem claim_c9_no_loan_zero_metrics_witness :
    (Main.parse_loan_info ⟨"1", []⟩ none).has_loan = false :=
  (claim_c9_no_loan_zero_metrics ⟨"1", []⟩ none).1 (Or.inl (by decide))

/-! ## C10 — calculate_account_metrics coercion and filtering -/

/-- C10.  `calculate_account_metrics` coerces absent and empty-string
numeric fields to 0 (so it never raises on them — the embedding is a
total function over that domain), always yields the record with a
`total_equity_usd` and a `currencies` field, and on a successful
response a currency entry appears in `currencies` exactly when the
coerced equity of the corresponding detail is strictly positive. -/
theorem claim_c10_account_metrics (resp : Main.ApiResp Main.BalData) :
    (Main.coerceNum .missing = 0 ∧ Main.coerceNum .empty = 0)
    ∧ (∀ d rest, resp.code = "0" → resp.data = d :: rest →
        (Main.calculate_account_metrics resp).total_equity_usd
            = Main.coerceNum d.totalEq
        ∧ ∀ e, e ∈ (Main.calculate_account_metrics resp).currencies ↔
            ∃ det ∈ d.details, 0 < Main.coerceNum det.eq
              ∧ e = ⟨det.ccy, Main.coerceNum det.eq,
                     Main.coerceNum det.availEq⟩) := by
  refine ⟨⟨rfl, rfl⟩, ?_⟩
  intro d rest hc hd
  unfold Main.calculate_account_metrics
  simp only [hc, hd, ne_eq, not_true_eq_false, if_false, ite_false,
    not_false_eq_true, if_neg]
  constructor
  · simp
  · intro e
    simp only [List.mem_map, List.mem_filter, decide_eq_true_eq]
    constructor
    · rintro ⟨det, ⟨hmem, hpos⟩, heq⟩
      exact ⟨det, hmem, hpos, heq.symm⟩
    · rintro ⟨det, hmem, hpos, heq⟩
      exact ⟨det, ⟨hmem, hpos⟩, heq.symm⟩

/-- Witness for C10 at a concrete balance response with one positive
and one zero-equity detail. -/
theorem claim_c10_account_metrics_witness :
    (Main.calculate_account_metrics
        ⟨"0", [⟨.num 5, [⟨"BTC", .num 2, .missing⟩, ⟨"ETH", .empty, .empty⟩]⟩]⟩
      ).total_equity_usd = Main.coerceNum (.num 5) :=
  ((claim_c10_account_metrics
      ⟨"0", [⟨.num 5, [⟨"BTC", .num 2, .missing⟩, ⟨"ETH", .empty, .empty⟩]⟩]⟩).2
    ⟨.num 5, [⟨"BTC", .num 2, .missing⟩, ⟨"ETH", .empty, .empty⟩]⟩ [] rfl rfl).1

/-! ## C1 / C3 — kimi batch resolver (quote priority and stablecoins) -/

theorem findSome_of_all_eq (f : String → Option ℚ) (a : String) :
    ∀ l2 : List String, (∀ x ∈ l2, x = a) → l2 ≠ [] →
      l2.findSome? f = f a := by
  intro l2
  induction l2 with
  | nil => intro _ h; exact absurd rfl h
  | cons x t ih =>
      intro hall _
      have hx : x = a := hall x (List.mem_cons_self x t)
      rw [List.findSome?_cons, hx]
      rcases hfa : f a with - | p
      · rcases ht : t with - | ⟨y, t2⟩
        · simp
        · rw [← ht]
          have := ih (fun z hz => hall z (List.mem_cons_of_mem x hz))
            (by rw [ht]; simp)
          simpa [hfa] using this
      · simp

theorem sortedQuotes_findSome_usd (so : List String) (f : String → Option ℚ)
    (p : ℚ) (hso : "USD" ∈ so) (hp : f "USD" = some p) :
    (Kimi.sortedQuotes so).findSome? f = some p := by
  unfold Kimi.sortedQuotes
  rw [List.findSome?_append]
  have h1 : (so.filter (fun q => q = "USD")).findSome? f = f "USD" := by
    refine findSome_of_all_eq f "USD" _ ?_ ?_
    · intro x hx
      exact of_decide_eq_true (List.mem_filter.mp hx).2
    · intro hnil
      have : "USD" ∈ so.filter (fun q => q = "USD") :=
        List.mem_filter.mpr ⟨hso, by simp⟩
      rw [hnil] at this
      exact absurd this (by simp)
  rw [h1, hp]
  rfl

theorem stablePass_aux (c : String) (hs : c ∈ Kimi.stablecoins) :
    ∀ (l : List String) (acc : List (String × ℚ)),
      (c ∈ l ∨ lookupA acc c = some 1) →
      lookupA (l.foldl Kimi.stableStep acc) c = some 1 := by
  intro l
  induction l with
  | nil =>
      intro acc h
      rcases h with h | h
      · exact absurd h (by simp)
      · simpa using h
  | cons x t ih =>
      intro acc h
      rw [List.foldl_cons]
      by_cases hx : x = c
      · refine ih _ (Or.inr ?_)
        rw [hx]
        unfold Kimi.stableStep
        rw [if_pos hs, lookupA_updateA_self]
      · refine ih _ ?_
        rcases h with h | h
        · rcases List.mem_cons.mp h with h2 | h2
          · exact absurd h2.symm hx
          · exact Or.inl h2
        · refine Or.inr ?_
          unfold Kimi.stableStep
          by_cases hxs : x ∈ Kimi.stablecoins
          · rw [if_pos hxs, lookupA_updateA_ne _ _ _ _ hx, h]
          · rw [if_neg hxs, h]

theorem resolveFold_preserves_stable (allTickers : List (String × ℚ))
    (so : List String) (c : String) (hs : c ∈ Kimi.stablecoins) :
    ∀ (l : List String) (acc : List (String × ℚ)),
      (∀ x ∈ l, x ∉ Kimi.stablecoins) →
      lookupA (l.foldl (Kimi.resolveStep allTickers so) acc) c = lookupA acc c := by
  intro l
  induction l with
  | nil => intro acc _; rfl
  | cons x t ih =>
      intro acc hall
      have hx : x ∉ Kimi.stablecoins := hall x (List.mem_cons_self x t)
      have hxc : x ≠ c := fun h => hx (h ▸ hs)
      rw [List.foldl_cons,
        ih _ (fun z hz => hall z (List.mem_cons_of_mem x hz))]
      unfold Kimi.resolveStep
      by_cases hsome : (lookupA acc x).isSome
      · rw [if_pos hsome]
      · rw [if_neg hsome, lookupA_updateA_ne _ _ _ _ hxc]

/-- C3 (amended).  Every currency in the resolver's own stablecoin set
`{USDT, USDC, USD, BUSD, DAI, USDP}` resolves to exactly 1.0,
regardless of the batch ticker state and the set-iteration order.
(`TUSD`, which the claim includes, is **not** in this set — see the
counterexample.) -/
theorem claim_c3_amended_stablecoins_one (allTickers : List (String × ℚ))
    (so : List String) (currencies : List String) (c : String)
    (hc : c ∈ currencies) (hs : c ∈ Kimi.stablecoins) :
    lookupA (Kimi.get_usd_ticker_prices_optimized allTickers so currencies) c
      = some 1 := by
  unfold Kimi.get_usd_ticker_prices_optimized
  rw [resolveFold_preserves_stable allTickers so c hs _ _
    (fun x hx => of_decide_eq_true (List.mem_filter.mp hx).2)]
  exact stablePass_aux c hs currencies [] (Or.inl hc)

/-- Witness for the amended C3: `USDC` resolves to 1.0 even when a
`USDC-USDT` ticker with a different price is present. -/
theorem claim_c3_amended_stablecoins_one_witness :
    lookupA (Kimi.get_usd_ticker_prices_optimized
      (Kimi.get_all_tickers [("USDC-USDT", 3)])
      ["USDT", "USDC", "USD"] ["USDC", "PEPE"]) "USDC" = some 1 :=
  claim_c3_amended_stablecoins_one _ _ _ _ (by decide) (by decide)

/-- C3 (counterexample).  `TUSD` is in the claim's stablecoin set but
not in the code's: with a `TUSD-USDT` ticker at price 2 the resolver
returns 2, not the claimed 1.0 — and the result did depend on the
ticker data, so no stablecoin short-circuit happened for `TUSD`. -/
theorem claim_c3_counterexample :
    lookupA (Kimi.get_usd_ticker_prices_optimized
        (Kimi.get_all_tickers [("TUSD-USDT", 2)])
        ["USDT", "USDC", "USD"] ["TUSD"]) "TUSD" ≠ some 1
    ∧ lookupA (Kimi.get_usd_ticker_prices_optimized
        (Kimi.get_all_tickers [("TUSD-USDT", 2)])
        ["USDT", "USDC", "USD"] ["TUSD"]) "TUSD" = some 2 := by
  constructor
  · decide
  · decide

/-- C1 (amended).  In the kimi/optimized batch resolver the quote
priority produced by the `sorted(..., key=lambda x: x == 'USD',
reverse=True)` call places `USD` first: whenever the ticker snapshot
has a `c-USD` entry, the resolver returns that price for any
non-stablecoin `c`, for every set-iteration order `so` containing
`"USD"` — so `USD`, not `USDT`, outranks the other quotes in this
tier. -/
theorem claim_c1_amended_usd_first (tickers : List (String × ℚ))
    (so : List String) (c : String) (p : ℚ)
    (hst : c ∉ Kimi.stablecoins) (hso : "USD" ∈ so)
    (hp : lookupA tickers (c ++ "-" ++ "USD") = some p) :
    lookupA (Kimi.get_usd_ticker_prices_optimized tickers so [c]) c = some p := by
  have hres : Kimi.resolveOne tickers so c = p := by
    unfold Kimi.resolveOne
    rw [sortedQuotes_findSome_usd so _ p hso hp]
  unfold Kimi.get_usd_ticker_prices_optimized
  have hf : ([c].filter (fun x => x ∉ Kimi.stablecoins)) = [c] := by
    simp [hst]
  rw [hf]
  have hsp : Kimi.stablePass [c] = [] := by
    unfold Kimi.stablePass Kimi.stableStep
    simp [hst]
  rw [hsp, List.foldl_cons, List.foldl_nil]
  unfold Kimi.resolveStep
  simp only [lookupA_nil, Option.isSome_none, Bool.false_eq_true, if_false]
  rw [hres, lookupA_updateA_self]

/-- Witness for the amended C1 at a concrete snapshot holding only a
`BTC-USD` instrument. -/
theorem claim_c1_amended_usd_first_witness :
    lookupA (Kimi.get_usd_ticker_prices_optimized
      [("BTC-USD", 63000)] ["USDT", "USDC", "USD"] ["BTC"]) "BTC"
      = some 63000 :=
  claim_c1_amended_usd_first [("BTC-USD", 63000)] ["USDT", "USDC", "USD"]
    "BTC" 63000 (by decide) (by decide) (by decide)

/-- C1 (counterexample).  With positive-price entries for both
`BTC-USDT` (64000) and `BTC-USD` (63000) in the batch snapshot, the
kimi resolver returns the `BTC-USD` price 63000, not the `BTC-USDT`
price 64000 claimed by the spec's tie-break rule. -/
theorem claim_c1_counterexample :
    lookupA (Kimi.get_usd_ticker_prices_optimized
        (Kimi.get_all_tickers [("BTC-USDT", 64000), ("BTC-USD", 63000)])
        ["USDT", "USDC", "USD"] ["BTC"]) "BTC" ≠ some 64000
    ∧ lookupA (Kimi.get_usd_ticker_prices_optimized
        (Kimi.get_all_tickers [("BTC-USDT", 64000), ("BTC-USD", 63000)])
        ["USDT", "USDC", "USD"] ["BTC"]) "BTC" = some 63000 := by
  constructor
  · decide
  · decide

/-! ## Durable-store lemmas (deepseek variant) -/

theorem storeGet_nil (d : String) (now : ℕ) : DS.storeGet [] d now = none := rfl

theorem storeGet_cons (x : DS.StoreEntry) (t : List DS.StoreEntry)
    (d : String) (now : ℕ) :
    DS.storeGet (x :: t) d now
      = if x.ccy = d then (if now < x.expiresAt then some x.price else none)
        else DS.storeGet t d now := by
  by_cases h : x.ccy = d <;> simp [DS.storeGet, List.find?, h]

theorem storeGet_storeSet_ne (c d : String) (p : ℚ) (e now : ℕ) (h : c ≠ d) :
    ∀ s : List DS.StoreEntry,
      DS.storeGet (DS.storeSet s c p e) d now = DS.storeGet s d now := by
  intro s
  induction s with
  | nil => simp [DS.storeSet, storeGet_cons, storeGet_nil, h]
  | cons x t ih =>
      by_cases hx : x.ccy = c
      · rw [show DS.storeSet (x :: t) c p e = ⟨c, p, e⟩ :: t from by
              simp [DS.storeSet, hx]]
        rw [storeGet_cons, storeGet_cons, if_neg (hx ▸ h : x.ccy ≠ d)]
        exact (if_neg h).symm ▸ rfl
      · rw [show DS.storeSet (x :: t) c p e = x :: DS.storeSet t c p e from by
              simp [DS.storeSet, hx]]
        rw [storeGet_cons, storeGet_cons, ih]

theorem storeGet_storeSet_self (c : String) (p : ℚ) (e now : ℕ) :
    ∀ s : List DS.StoreEntry,
      DS.storeGet (DS.storeSet s c p e) c now
        = if now < e then some p else none := by
  intro s
  induction s with
  | nil => simp [DS.storeSet, storeGet_cons]
  | cons x t ih =>
      by_cases hx : x.ccy = c
      · rw [show DS.storeSet (x :: t) c p e = ⟨c, p, e⟩ :: t from by
              simp [DS.storeSet, hx]]
        simp [storeGet_cons]
      · rw [show DS.storeSet (x :: t) c p e = x :: DS.storeSet t c p e from by
              simp [DS.storeSet, hx]]
        rw [storeGet_cons, if_neg hx, ih]

theorem storeSetBatch_cons (s : List DS.StoreEntry) (kv : String × ℚ)
    (t : List (String × ℚ)) (e : ℕ) :
    DS.storeSetBatch s (kv :: t) e
      = DS.storeSetBatch (DS.storeSet s kv.1 kv.2 e) t e := rfl

theorem storeGet_storeSetBatch_not_mem (c : String) (e now : ℕ) :
    ∀ (prices : List (String × ℚ)) (s : List DS.StoreEntry),
      (∀ kv ∈ prices, kv.1 ≠ c) →
      DS.storeGet (DS.storeSetBatch s prices e) c now = DS.storeGet s c now := by
  intro prices
  induction prices with
  | nil => intro s _; rfl
  | cons kv t ih =>
      intro s hall
      have hk : kv.1 ≠ c := hall kv (List.mem_cons_self kv t)
      rw [storeSetBatch_cons,
        ih _ (fun z hz => hall z (List.mem_cons_of_mem kv hz))]
      exact storeGet_storeSet_ne kv.1 c kv.2 e now hk s

theorem storeGet_storeSetBatch_mem_const (c : String) (w : ℚ) (now : ℕ) :
    ∀ (prices : List (String × ℚ)) (s : List DS.StoreEntry),
      (∀ kv ∈ prices, kv.1 = c → kv.2 = w) →
      (∃ kv ∈ prices, kv.1 = c) →
      DS.storeGet (DS.storeSetBatch s prices (now + 300)) c now = some w := by
  intro prices
  induction prices with
  | nil =>
      intro s _ hex
      rcases hex with ⟨kv, hkv, -⟩
      exact absurd hkv (by simp)
  | cons kv t ih =>
      intro s hall hex
      rw [storeSetBatch_cons]
      by_cases hx : ∃ z ∈ t, z.1 = c
      · exact ih _ (fun z hz => hall z (List.mem_cons_of_mem kv hz)) hx
      · have hk : kv.1 = c := by
          rcases hex with ⟨z, hz, hzc⟩
          rcases List.mem_cons.mp hz with h | h
          · exact h ▸ hzc
          · exact absurd ⟨z, h, hzc⟩ hx
        have hw : kv.2 = w := hall kv (List.mem_cons_self kv t) hk
        have hnt : ∀ z ∈ t, z.1 ≠ c := by
          intro z hz hzc
          exact hx ⟨z, hz, hzc⟩
        rw [storeGet_storeSetBatch_not_mem c (now + 300) now t _ hnt]
        rw [hk, hw, storeGet_storeSet_self]
        simp

/-! ## Phase-fold lemmas (deepseek variant) -/

theorem storePhase_hit (store : List DS.StoreEntry) (now : ℕ) (c : String)
    (p : ℚ) (hhit : DS.storeGet store c now = some p) :
    ∀ (l : List String) (acc : List (String × ℚ) × List String),
      c ∉ acc.2 → (c ∈ l ∨ lookupA acc.1 c = some p) →
      lookupA (l.foldl (DS.storeStep store now) acc).1 c = some p
      ∧ c ∉ (l.foldl (DS.storeStep store now) acc).2 := by
  intro l
  induction l with
  | nil =>
      intro acc hnm h
      rcases h with h | h
      · exact absurd h (by simp)
      · exact ⟨h, hnm⟩
  | cons x t ih =>
      intro acc hnm h
      rw [List.foldl_cons]
      by_cases hx : x = c
      · subst hx
        refine ih _ ?_ (Or.inr ?_)
        · unfold DS.storeStep
          rw [hhit]
          exact hnm
        · unfold DS.storeStep
          rw [hhit]
          exact lookupA_updateA_self _ _ _
      · have hnm1 : c ∉ (DS.storeStep store now acc x).2 := by
          unfold DS.storeStep
          rcases hg : DS.storeGet store x now with - | q
          · simp only []
            intro hmem
            rcases List.mem_append.mp hmem with hmem | hmem
            · exact hnm hmem
            · exact hx (List.mem_singleton.mp hmem).symm
          · exact hnm
        refine ih _ hnm1 ?_
        rcases h with h | h
        · rcases List.mem_cons.mp h with h2 | h2
          · exact absurd h2.symm hx
          · exact Or.inl h2
        · refine Or.inr ?_
          unfold DS.storeStep
          rcases hg : DS.storeGet store x now with - | q
          · exact h
          · rw [lookupA_updateA_ne _ _ _ _ hx]
            exact h

theorem storePhase_miss_lookup (store : List DS.StoreEntry) (now : ℕ)
    (c : String) (hmiss : DS.storeGet store c now = none) :
    ∀ (l : List String) (acc : List (String × ℚ) × List String),
      lookupA acc.1 c = none →
      lookupA (l.foldl (DS.storeStep store now) acc).1 c = none := by
  intro l
  induction l with
  | nil => intro acc h; exact h
  | cons x t ih =>
      intro acc h
      rw [List.foldl_cons]
      refine ih _ ?_
      unfold DS.storeStep
      by_cases hx : x = c
      · subst hx
        rw [hmiss]
        exact h
      · rcases hg : DS.storeGet store x now with - | q
        · exact h
        · rw [lookupA_updateA_ne _ _ _ _ hx]
          exact h

theorem storePhase_miss_mem (store : List DS.StoreEntry) (now : ℕ)
    (c : String) (hmiss : DS.storeGet store c now = none) :
    ∀ (l : List String) (acc : List (String × ℚ) × List String),
      (c ∈ acc.2 ∨ c ∈ l) →
      c ∈ (l.foldl (DS.storeStep store now) acc).2 := by
  intro l
  induction l with
  | nil =>
      intro acc h
      rcases h with h | h
      · exact h
      · exact absurd h (by simp)
  | cons x t ih =>
      intro acc h
      rw [List.foldl_cons]
      refine ih _ ?_
      by_cases hx : x = c
      · subst hx
        unfold DS.storeStep
        rw [hmiss]
        exact Or.inl (List.mem_append.mpr (Or.inr (by simp)))
      · rcases h with h | h
        · refine Or.inl ?_
          unfold DS.storeStep
          rcases hg : DS.storeGet store x now with - | q
          · exact List.mem_append.mpr (Or.inl h)
          · exact h
        · rcases List.mem_cons.mp h with h2 | h2
          · exact absurd h2.symm hx
          · exact Or.inr h2

theorem storePhase_all_hit (store : List DS.StoreEntry) (now : ℕ) :
    ∀ (l : List String) (acc : List (String × ℚ) × List String),
      (∀ x ∈ l, (DS.storeGet store x now).isSome) →
      (l.foldl (DS.storeStep store now) acc).2 = acc.2 := by
  intro l
  induction l with
  | nil => intro acc _; rfl
  | cons x t ih =>
      intro acc hall
      rw [List.foldl_cons]
      have hx := hall x (List.mem_cons_self x t)
      rcases hg : DS.storeGet store x now with - | q
      · rw [hg] at hx; exact absurd hx (by simp)
      · rw [ih _ (fun z hz => hall z (List.mem_cons_of_mem x hz))]
        unfold DS.storeStep
        rw [hg]

theorem batchMatch_preserve_lookup (allPairs : List (String × ℚ)) (c : String) :
    ∀ (l : List String) (acc : List (String × ℚ) × List String × List String),
      c ∉ l →
      lookupA (l.foldl (DS.batchStep allPairs) acc).1 c = lookupA acc.1 c := by
  intro l
  induction l with
  | nil => intro acc _; rfl
  | cons x t ih =>
      intro acc hnm
      have hx : x ≠ c := fun h => hnm (h ▸ List.mem_cons_self x t)
      have hnt : c ∉ t := fun h => hnm (List.mem_cons_of_mem x h)
      rw [List.foldl_cons, ih _ hnt]
      unfold DS.batchStep
      rcases hg : lookupA allPairs x with - | q
      · rfl
      · exact lookupA_updateA_ne _ _ _ _ hx

theorem batchMatch_newly_sub (allPairs : List (String × ℚ)) (z : String) :
    ∀ (l : List String) (acc : List (String × ℚ) × List String × List String),
      z ∈ (l.foldl (DS.batchStep allPairs) acc).2.1 →
      z ∈ acc.2.1 ∨ z ∈ l := by
  intro l
  induction l with
  | nil => intro acc h; exact Or.inl h
  | cons x t ih =>
      intro acc h
      rw [List.foldl_cons] at h
      rcases ih _ h with h2 | h2
      · unfold DS.batchStep at h2
        rcases hg : lookupA allPairs x with - | q
        · rw [hg] at h2
          exact Or.inl h2
        · rw [hg] at h2
          simp only [] at h2
          rcases List.mem_append.mp h2 with h3 | h3
          · exact Or.inl h3
          · exact Or.inr (List.mem_singleton.mp h3 ▸ List.mem_cons_self x t)
      · exact Or.inr (List.mem_cons_of_mem x h2)

theorem batchMatch_still_sub (allPairs : List (String × ℚ)) (z : String) :
    ∀ (l : List String) (acc : List (String × ℚ) × List String × List String),
      z ∈ (l.foldl (DS.batchStep allPairs) acc).2.2 →
      z ∈ acc.2.2 ∨ z ∈ l := by
  intro l
  induction l with
  | nil => intro acc h; exact Or.inl h
  | cons x t ih =>
      intro acc h
      rw [List.foldl_cons] at h
      rcases ih _ h with h2 | h2
      · unfold DS.batchStep at h2
        rcases hg : lookupA allPairs x with - | q
        · rw [hg] at h2
          simp only [] at h2
          rcases List.mem_append.mp h2 with h3 | h3
          · exact Or.inl h3
          · exact Or.inr (List.mem_singleton.mp h3 ▸ List.mem_cons_self x t)
        · rw [hg] at h2
          exact Or.inl h2
      · exact Or.inr (List.mem_cons_of_mem x h2)

theorem batchMatch_hit (allPairs : List (String × ℚ)) (c : String) (w : ℚ)
    (hw : lookupA allPairs c = some w) :
    ∀ (l : List String) (acc : List (String × ℚ) × List String × List String),
      c ∉ acc.2.2 →
      (c ∈ l ∨ (lookupA acc.1 c = some w ∧ c ∈ acc.2.1)) →
      lookupA (l.foldl (DS.batchStep allPairs) acc).1 c = some w
      ∧ c ∈ (l.foldl (DS.batchStep allPairs) acc).2.1
      ∧ c ∉ (l.foldl (DS.batchStep allPairs) acc).2.2 := by
  intro l
  induction l with
  | nil =>
      intro acc hns h
      rcases h with h | h
      · exact absurd h (by simp)
      · exact ⟨h.1, h.2, hns⟩
  | cons x t ih =>
      intro acc hns h
      rw [List.foldl_cons]
      by_cases hx : x = c
      · subst hx
        refine ih _ ?_ (Or.inr ?_)
        · unfold DS.batchStep
          rw [hw]
          exact hns
        · unfold DS.batchStep
          rw [hw]
          exact ⟨lookupA_updateA_self _ _ _,
            List.mem_append.mpr (Or.inr (by simp))⟩
      · have hns1 : c ∉ (DS.batchStep allPairs acc x).2.2 := by
          unfold DS.batchStep
          rcases hg : lookupA allPairs x with - | q
          · simp only []
            intro hmem
            rcases List.mem_append.mp hmem with hmem | hmem
            · exact hns hmem
            · exact hx (List.mem_singleton.mp hmem).symm
          · exact hns
        refine ih _ hns1 ?_
        rcases h with h | h
        · rcases List.mem_cons.mp h with h2 | h2
          · exact absurd h2.symm hx
          · exact Or.inl h2
        · refine Or.inr ?_
          unfold DS.batchStep
          rcases hg : lookupA allPairs x with - | q
          · exact h
          · exact ⟨(lookupA_updateA_ne _ _ _ _ hx).symm ▸ h.1,
              List.mem_append.mpr (Or.inl h.2)⟩

theorem batchMatch_miss (allPairs : List (String × ℚ)) (c : String)
    (hw : lookupA allPairs c = none) :
    ∀ (l : List String) (acc : List (String × ℚ) × List String × List String),
      c ∉ acc.2.1 → lookupA acc.1 c = none →
      (c ∈ acc.2.2 ∨ c ∈ l) →
      lookupA (l.foldl (DS.batchStep allPairs) acc).1 c = none
      ∧ c ∉ (l.foldl (DS.batchStep allPairs) acc).2.1
      ∧ c ∈ (l.foldl (DS.batchStep allPairs) acc).2.2 := by
  intro l
  induction l with
  | nil =>
      intro acc hnn hlk h
      rcases h with h | h
      · exact ⟨hlk, hnn, h⟩
      · exact absurd h (by simp)
  | cons x t ih =>
      intro acc hnn hlk h
      rw [List.foldl_cons]
      by_cases hx : x = c
      · subst hx
        refine ih _ ?_ ?_ (Or.inl ?_)
        · unfold DS.batchStep
          rw [hw]
          exact hnn
        · unfold DS.batchStep
          rw [hw]
          exact hlk
        · unfold DS.batchStep
          rw [hw]
          exact List.mem_append.mpr (Or.inr (by simp))
      · have hnn1 : c ∉ (DS.batchStep allPairs acc x).2.1 := by
          unfold DS.batchStep
          rcases hg : lookupA allPairs x with - | q
          · exact hnn
          · simp only []
            intro hmem
            rcases List.mem_append.mp hmem with hmem | hmem
            · exact hnn hmem
            · exact hx (List.mem_singleton.mp hmem).symm
        have hlk1 : lookupA (DS.batchStep allPairs acc x).1 c = none := by
          unfold DS.batchStep
          rcases hg : lookupA allPairs x with - | q
          · exact hlk
          · rw [lookupA_updateA_ne _ _ _ _ hx]
            exact hlk
        refine ih _ hnn1 hlk1 ?_
        rcases h with h | h
        · refine Or.inl ?_
          unfold DS.batchStep
          rcases hg : lookupA allPairs x with - | q
          · exact List.mem_append.mpr (Or.inl h)
          · exact h
        · rcases List.mem_cons.mp h with h2 | h2
          · exact absurd h2.symm hx
          · exact Or.inr h2

theorem indFold_preserve (env : DS.DSEnv) (now : ℕ) (c : String) (v : ℚ) :
    ∀ (l : List String) (s : DS.IndState),
      lookupA s.prices c = some v →
      lookupA (l.foldl (DS.indStep env now) s).prices c = some v
      ∧ DS.storeGet (l.foldl (DS.indStep env now) s).store c now
          = DS.storeGet s.store c now := by
  intro l
  induction l with
  | nil => intro s h; exact ⟨h, rfl⟩
  | cons x t ih =>
      intro s h
      rw [List.foldl_cons]
      by_cases hx : x = c
      · subst hx
        have he : DS.indStep env now s x = s := by
          unfold DS.indStep
          rw [h]
          rfl
        rw [he]
        exact ih _ h
      · have h1 : lookupA (DS.indStep env now s x).prices c = some v := by
          unfold DS.indStep
          rcases hs : (lookupA s.prices x).isSome with - | -
          · rcases hg : DS.individualGo env x DS.usdQuotes 0 with ⟨o, k⟩
            rcases o with - | q
            · simp only [hs, Bool.false_eq_true, if_false, hg]
              rw [lookupA_updateA_ne _ _ _ _ hx]
              exact h
            · simp only [hs, Bool.false_eq_true, if_false, hg]
              rw [lookupA_updateA_ne _ _ _ _ hx]
              exact h
          · simp only [hs, if_true]
            exact h
        have h2 : DS.storeGet (DS.indStep env now s x).store c now
            = DS.storeGet s.store c now := by
          unfold DS.indStep
          rcases hs : (lookupA s.prices x).isSome with - | -
          · rcases hg : DS.individualGo env x DS.usdQuotes 0 with ⟨o, k⟩
            rcases o with - | q
            · simp only [hs, Bool.false_eq_true, if_false, hg]
            · simp only [hs, Bool.false_eq_true, if_false, hg]
              exact storeGet_storeSet_ne _ _ _ _ _ hx _
          · simp only [hs, if_true]
        rcases ih _ h1 with ⟨ha, hb⟩
        exact ⟨ha, hb.trans h2⟩

theorem indStep_lookup_ne (env : DS.DSEnv) (now : ℕ) (s : DS.IndState)
    (x c : String) (hx : x ≠ c) :
    lookupA (DS.indStep env now s x).prices c = lookupA s.prices c := by
  unfold DS.indStep
  rcases hs : (lookupA s.prices x).isSome with - | -
  · rcases hg : DS.individualGo env x DS.usdQuotes 0 with ⟨o, k⟩
    rcases o with - | q
    · simp only [hs, Bool.false_eq_true, if_false, hg]
      exact lookupA_updateA_ne _ _ _ _ hx
    · simp only [hs, Bool.false_eq_true, if_false, hg]
      exact lookupA_updateA_ne _ _ _ _ hx
  · simp only [hs, if_true]

theorem indStep_store_ne (env : DS.DSEnv) (now : ℕ) (s : DS.IndState)
    (x c : String) (hx : x ≠ c) :
    DS.storeGet (DS.indStep env now s x).store c now
      = DS.storeGet s.store c now := by
  unfold DS.indStep
  rcases hs : (lookupA s.prices x).isSome with - | -
  · rcases hg : DS.individualGo env x DS.usdQuotes 0 with ⟨o, k⟩
    rcases o with - | q
    · simp only [hs, Bool.false_eq_true, if_false, hg]
    · simp only [hs, Bool.false_eq_true, if_false, hg]
      exact storeGet_storeSet_ne _ _ _ _ _ hx _
  · simp only [hs, if_true]

theorem indFold_first_found (env : DS.DSEnv) (now : ℕ) (c : String) (p : ℚ)
    (k : ℕ) (hgo : DS.individualGo env c DS.usdQuotes 0 = (some p, k)) :
    ∀ (l : List String) (s : DS.IndState),
      c ∈ l → lookupA s.prices c = none →
      lookupA (l.foldl (DS.indStep env now) s).prices c = some p
      ∧ DS.storeGet (l.foldl (DS.indStep env now) s).store c now = some p := by
  intro l
  induction l with
  | nil => intro s h _; exact absurd h (by simp)
  | cons x t ih =>
      intro s hmem hlk
      rw [List.foldl_cons]
      by_cases hx : x = c
      · subst hx
        have he : DS.indStep env now s x
            = ⟨updateA s.prices x p,
               DS.storeSet s.store x p (now + 300), s.cnt + k⟩ := by
          unfold DS.indStep
          rw [hlk, hgo]
          rfl
        rw [he]
        rcases indFold_preserve env now x p t
            ⟨updateA s.prices x p, DS.storeSet s.store x p (now + 300),
             s.cnt + k⟩ (lookupA_updateA_self _ _ _) with ⟨ha, hb⟩
        refine ⟨ha, hb.trans ?_⟩
        rw [storeGet_storeSet_self]
        simp
      · have ht : c ∈ t := by
          rcases List.mem_cons.mp hmem with h2 | h2
          · exact absurd h2.symm hx
          · exact h2
        rcases ih (DS.indStep env now s x) ht
            ((indStep_lookup_ne env now s x c hx).trans hlk) with ⟨ha, hb⟩
        exact ⟨ha, hb⟩

theorem indFold_first_sentinel (env : DS.DSEnv) (now : ℕ) (c : String)
    (k : ℕ) (hgo : DS.individualGo env c DS.usdQuotes 0 = (none, k)) :
    ∀ (l : List String) (s : DS.IndState),
      c ∈ l → lookupA s.prices c = none →
      lookupA (l.foldl (DS.indStep env now) s).prices c = some 0
      ∧ DS.storeGet (l.foldl (DS.indStep env now) s).store c now
          = DS.storeGet s.store c now := by
  intro l
  induction l with
  | nil => intro s h _; exact absurd h (by simp)
  | cons x t ih =>
      intro s hmem hlk
      rw [List.foldl_cons]
      by_cases hx : x = c
      · subst hx
        have he : DS.indStep env now s x
            = ⟨updateA s.prices x 0, s.store, s.cnt + k⟩ := by
          unfold DS.indStep
          rw [hlk, hgo]
          rfl
        rw [he]
        exact indFold_preserve env now x 0 t
          ⟨updateA s.prices x 0, s.store, s.cnt + k⟩
          (lookupA_updateA_self _ _ _)
      · have ht : c ∈ t := by
          rcases List.mem_cons.mp hmem with h2 | h2
          · exact absurd h2.symm hx
          · exact h2
        rcases ih (DS.indStep env now s x) ht
            ((indStep_lookup_ne env now s x c hx).trans hlk) with ⟨ha, hb⟩
        exact ⟨ha, hb.trans (indStep_store_ne env now s x c hx)⟩

/-! ## Bridges from the fold lemmas to the named phase functions -/

theorem storePhase_hit_main (store : List DS.StoreEntry) (now : ℕ)
    (currencies : List String) (c : String) (p : ℚ)
    (hhit : DS.storeGet store c now = some p) (hc : c ∈ currencies) :
    lookupA (DS.storePhase store now currencies).1 c = some p
    ∧ c ∉ (DS.storePhase store now currencies).2 :=
  storePhase_hit store now c p hhit currencies ([], []) (by simp) (Or.inl hc)

theorem storePhase_miss_main (store : List DS.StoreEntry) (now : ℕ)
    (currencies : List String) (c : String)
    (hmiss : DS.storeGet store c now = none) (hc : c ∈ currencies) :
    lookupA (DS.storePhase store now currencies).1 c = none
    ∧ c ∈ (DS.storePhase store now currencies).2 :=
  ⟨storePhase_miss_lookup store now c hmiss currencies ([], []) rfl,
   storePhase_miss_mem store now c hmiss currencies ([], []) (Or.inr hc)⟩

theorem storePhase_all_hit_main (store : List DS.StoreEntry) (now : ℕ)
    (currencies : List String)
    (hall : ∀ x ∈ currencies, (DS.storeGet store x now).isSome) :
    (DS.storePhase store now currencies).2 = [] :=
  storePhase_all_hit store now currencies ([], []) hall

theorem batchMatch_preserve_main (allPairs : List (String × ℚ))
    (missing : List String) (prices0 : List (String × ℚ)) (c : String)
    (h : c ∉ missing) :
    lookupA (DS.batchMatch allPairs missing prices0).1 c = lookupA prices0 c :=
  batchMatch_preserve_lookup allPairs c missing (prices0, [], []) h

theorem batchMatch_newly_sub_main (allPairs : List (String × ℚ))
    (missing : List String) (prices0 : List (String × ℚ)) (z : String)
    (h : z ∈ (DS.batchMatch allPairs missing prices0).2.1) : z ∈ missing := by
  rcases batchMatch_newly_sub allPairs z missing (prices0, [], []) h with h2 | h2
  · exact absurd h2 (by simp)
  · exact h2

theorem batchMatch_still_sub_main (allPairs : List (String × ℚ))
    (missing : List String) (prices0 : List (String × ℚ)) (z : String)
    (h : z ∈ (DS.batchMatch allPairs missing prices0).2.2) : z ∈ missing := by
  rcases batchMatch_still_sub allPairs z missing (prices0, [], []) h with h2 | h2
  · exact absurd h2 (by simp)
  · exact h2

theorem batchMatch_hit_main (allPairs : List (String × ℚ))
    (missing : List String) (prices0 : List (String × ℚ)) (c : String) (w : ℚ)
    (hw : lookupA allPairs c = some w) (hc : c ∈ missing) :
    lookupA (DS.batchMatch allPairs missing prices0).1 c = some w
    ∧ c ∈ (DS.batchMatch allPairs missing prices0).2.1
    ∧ c ∉ (DS.batchMatch allPairs missing prices0).2.2 :=
  batchMatch_hit allPairs c w hw missing (prices0, [], []) (by simp) (Or.inl hc)

theorem batchMatch_miss_main (allPairs : List (String × ℚ))
    (missing : List String) (prices0 : List (String × ℚ)) (c : String)
    (hw : lookupA allPairs c = none) (hc : c ∈ missing)
    (h0 : lookupA prices0 c = none) :
    lookupA (DS.batchMatch allPairs missing prices0).1 c = none
    ∧ c ∉ (DS.batchMatch allPairs missing prices0).2.1
    ∧ c ∈ (DS.batchMatch allPairs missing prices0).2.2 :=
  batchMatch_miss allPairs c hw missing (prices0, [], []) (by simp) h0
    (Or.inr hc)

theorem individualPhase_preserve_main (env : DS.DSEnv) (now : ℕ)
    (stillMissing : List String) (s : DS.IndState) (c : String) (v : ℚ)
    (h : lookupA s.prices c = some v) :
    lookupA (DS.individualPhase env now stillMissing s).prices c = some v
    ∧ DS.storeGet (DS.individualPhase env now stillMissing s).store c now
        = DS.storeGet s.store c now :=
  indFold_preserve env now c v stillMissing s h

theorem individualPhase_found_main (env : DS.DSEnv) (now : ℕ)
    (stillMissing : List String) (s : DS.IndState) (c : String) (p : ℚ) (k : ℕ)
    (hgo : DS.individualGo env c DS.usdQuotes 0 = (some p, k))
    (hc : c ∈ stillMissing) (h0 : lookupA s.prices c = none) :
    lookupA (DS.individualPhase env now stillMissing s).prices c = some p
    ∧ DS.storeGet (DS.individualPhase env now stillMissing s).store c now
        = some p :=
  indFold_first_found env now c p k hgo stillMissing s hc h0

theorem individualPhase_sentinel_main (env : DS.DSEnv) (now : ℕ)
    (stillMissing : List String) (s : DS.IndState) (c : String) (k : ℕ)
    (hgo : DS.individualGo env c DS.usdQuotes 0 = (none, k))
    (hc : c ∈ stillMissing) (h0 : lookupA s.prices c = none) :
    lookupA (DS.individualPhase env now stillMissing s).prices c = some 0
    ∧ DS.storeGet (DS.individualPhase env now stillMissing s).store c now
        = DS.storeGet s.store c now :=
  indFold_first_sentinel env now c k hgo stillMissing s hc h0

/-! ## C2 — tier order: durable store vs session cache -/

/-- A store hit propagates through the remaining tiers: any currency
with an unexpired store entry resolves to the store value. -/
theorem resolver_store_hit_prices (env : DS.DSEnv) (st : DS.DSState)
    (now : ℕ) (currencies : List String) (c : String) (p : ℚ)
    (hc : c ∈ currencies) (hhit : DS.storeGet st.store c now = some p) :
    lookupA (DS.get_usd_ticker_prices env st now currencies).prices c
      = some p := by
  rcases storePhase_hit_main st.store now currencies c p hhit hc with ⟨hpm1, hpm2⟩
  simp only [DS.get_usd_ticker_prices]
  by_cases h1 : (DS.storePhase st.store now currencies).2.isEmpty
  · rw [if_pos h1]
    exact hpm1
  · rw [if_neg h1]
    have hbm1 := (batchMatch_preserve_main (DS.get_all_usd_pairs env st now).1
      (DS.storePhase st.store now currencies).2
      (DS.storePhase st.store now currencies).1 c hpm2).trans hpm1
    have hbm2 : c ∉ (DS.batchMatch (DS.get_all_usd_pairs env st now).1
        (DS.storePhase st.store now currencies).2
        (DS.storePhase st.store now currencies).1).2.2 :=
      fun hmem => hpm2 (batchMatch_still_sub_main _ _ _ c hmem)
    by_cases h2 : (DS.batchMatch (DS.get_all_usd_pairs env st now).1
        (DS.storePhase st.store now currencies).2
        (DS.storePhase st.store now currencies).1).2.2.isEmpty
    · rw [if_pos h2]
      exact hbm1
    · rw [if_neg h2]
      exact (individualPhase_preserve_main env now _ _ c p hbm1).1

/-- C2 (amended).  The deepseek resolver consults the durable Price
Store BEFORE the session cache: any currency with an unexpired store
entry resolves to the store value, regardless of the session-cache
contents (fresh or not) and of the network. -/
theorem claim_c2_amended_store_first (env : DS.DSEnv) (st : DS.DSState)
    (now : ℕ) (currencies : List String) (c : String) (p : ℚ)
    (hc : c ∈ currencies) (hhit : DS.storeGet st.store c now = some p) :
    lookupA (DS.get_usd_ticker_prices env st now currencies).prices c
      = some p :=
  resolver_store_hit_prices env st now currencies c p hc hhit

/-- Witness for the amended C2: the store holds `BTC ↦ 50000`
(unexpired) while the fresh session cache holds `BTC ↦ 60000`; the
resolver returns 50000. -/
theorem claim_c2_amended_store_first_witness :
    lookupA (DS.get_usd_ticker_prices ⟨fun _ => none, fun _ => none⟩
      ⟨[⟨"BTC", 50000, 1000⟩], [("BTC", 60000)], 95⟩ 100 ["BTC"]).prices "BTC"
      = some 50000 :=
  claim_c2_amended_store_first ⟨fun _ => none, fun _ => none⟩
    ⟨[⟨"BTC", 50000, 1000⟩], [("BTC", 60000)], 95⟩ 100 ["BTC"] "BTC" 50000
    (by decide) (by decide)

/-- C2 (counterexample).  At `now = 100` the session cache
`{BTC ↦ 60000}` captured at 95 is fresh (5 < 30) and the store holds
the unexpired entry `BTC ↦ 50000` (expiry 1000).  The claim says the
resolver output maps BTC to the session value 60000; it actually maps
it to the store value 50000. -/
theorem claim_c2_counterexample :
    lookupA (DS.get_usd_ticker_prices ⟨fun _ => none, fun _ => none⟩
        ⟨[⟨"BTC", 50000, 1000⟩], [("BTC", 60000)], 95⟩ 100 ["BTC"]).prices
      "BTC" ≠ some 60000
    ∧ lookupA (DS.get_usd_ticker_prices ⟨fun _ => none, fun _ => none⟩
        ⟨[⟨"BTC", 50000, 1000⟩], [("BTC", 60000)], 95⟩ 100 ["BTC"]).prices
      "BTC" = some 50000
    ∧ DS.sessionFresh ⟨[⟨"BTC", 50000, 1000⟩], [("BTC", 60000)], 95⟩ 100 := by
  refine ⟨by decide, by decide, by decide⟩

/-! ## C6 — terminal 0.0 sentinel -/

theorem get_all_usd_pairs_fresh (env : DS.DSEnv) (st : DS.DSState) (now : ℕ)
    (h : DS.sessionFresh st now) :
    DS.get_all_usd_pairs env st now = (st.sessionMap, st, 0) := by
  unfold DS.get_all_usd_pairs
  rw [if_pos h]

theorem mem_not_isEmpty (l : List String) (c : String) (h : c ∈ l) :
    ¬ l.isEmpty = true := by
  rcases l with - | ⟨x, t⟩
  · exact absurd h (by simp)
  · simp

/-- C6 (amended).  A currency that misses the durable store, the batch
map and every individual lookup is assigned the plain `0.0` sentinel —
the embedding is total, so no exception is raised — but the sentinel
carries no distinct flag: the result is a bare currency→price map (see
the counterexample for indistinguishability from a stored zero
price). -/
theorem claim_c6_amended_sentinel (env : DS.DSEnv) (st : DS.DSState)
    (now : ℕ) (currencies : List String) (c : String) (k : ℕ)
    (hc : c ∈ currencies)
    (hmiss : DS.storeGet st.store c now = none)
    (hap : lookupA (DS.get_all_usd_pairs env st now).1 c = none)
    (hgo : DS.individualGo env c DS.usdQuotes 0 = (none, k)) :
    lookupA (DS.get_usd_ticker_prices env st now currencies).prices c
      = some 0 := by
  rcases storePhase_miss_main st.store now currencies c hmiss hc with ⟨hpm1, hpm2⟩
  simp only [DS.get_usd_ticker_prices]
  rw [if_neg (mem_not_isEmpty _ c hpm2)]
  rcases batchMatch_miss_main (DS.get_all_usd_pairs env st now).1
    (DS.storePhase st.store now currencies).2
    (DS.storePhase st.store now currencies).1 c hap hpm2 hpm1
    with ⟨hbm1, -, hbm3⟩
  rw [if_neg (mem_not_isEmpty _ c hbm3)]
  exact (individualPhase_sentinel_main env now _ _ c k hgo hbm3 hbm1).1

/-- Witness for the amended C6 at a concrete unresolvable currency. -/
theorem claim_c6_amended_sentinel_witness :
    lookupA (DS.get_usd_ticker_prices ⟨fun _ => none, fun _ => none⟩
      ⟨[], [("BTC", 5)], 100⟩ 100 ["XYZ"]).prices "XYZ" = some 0 :=
  claim_c6_amended_sentinel ⟨fun _ => none, fun _ => none⟩
    ⟨[], [("BTC", 5)], 100⟩ 100 ["XYZ"] "XYZ" 3 (by decide) (by decide)
    (by decide) (by decide)

/-- C6 (counterexample).  The claim says the `0.0` sentinel is flagged
distinctly from a genuinely-zero valuation in the result structure.
It is not: resolving `XYZ` against a store that genuinely holds the
unexpired price `XYZ ↦ 0` produces a result structure EQUAL to the one
produced when `XYZ` is absent from every tier and falls through to the
sentinel — both are the unmarked map `[("XYZ", 0)]`. -/
theorem claim_c6_counterexample :
    (DS.get_usd_ticker_prices ⟨fun _ => none, fun _ => none⟩
        ⟨[⟨"XYZ", 0, 1000⟩], [("BTC", 5)], 100⟩ 100 ["XYZ"]).prices
      = (DS.get_usd_ticker_prices ⟨fun _ => none, fun _ => none⟩
        ⟨[], [("BTC", 5)], 100⟩ 100 ["XYZ"]).prices
    ∧ (DS.get_usd_ticker_prices ⟨fun _ => none, fun _ => none⟩
        ⟨[], [("BTC", 5)], 100⟩ 100 ["XYZ"]).prices = [("XYZ", 0)] := by
  refine ⟨by decide, by decide⟩

/-! ## C8 — second-call behaviour of the resolver -/

/-- With a fresh session cache, every requested currency resolves to
some value `v`, and unless `v` is the `0.0` sentinel the post-call
durable store holds exactly `v` for it (unexpired at the same
instant). -/
theorem resolver_fresh_charact (env : DS.DSEnv) (st : DS.DSState) (now : ℕ)
    (currencies : List String) (c : String)
    (hfresh : DS.sessionFresh st now) (hc : c ∈ currencies) :
    ∃ v, lookupA (DS.get_usd_ticker_prices env st now currencies).prices c
        = some v
      ∧ (DS.storeGet (DS.get_usd_ticker_prices env st now
            currencies).state.store c now = some v ∨ v = 0) := by
  have hap1 : (DS.get_all_usd_pairs env st now).1 = st.sessionMap := by
    rw [get_all_usd_pairs_fresh env st now hfresh]
  have hap2 : (DS.get_all_usd_pairs env st now).2.1 = st := by
    rw [get_all_usd_pairs_fresh env st now hfresh]
  rcases hsg : DS.storeGet st.store c now with - | p
  · -- the store misses `c`
    rcases storePhase_miss_main st.store now currencies c hsg hc
      with ⟨hpm1, hpm2⟩
    simp only [DS.get_usd_ticker_prices]
    rw [if_neg (mem_not_isEmpty _ c hpm2)]
    rcases hsl : lookupA st.sessionMap c with - | w
    · -- the fresh session map also misses `c`
      have hapm : lookupA (DS.get_all_usd_pairs env st now).1 c = none := by
        rw [hap1]; exact hsl
      rcases batchMatch_miss_main (DS.get_all_usd_pairs env st now).1
          (DS.storePhase st.store now currencies).2
          (DS.storePhase st.store now currencies).1 c hapm hpm2 hpm1
        with ⟨hbm1, -, hbm3⟩
      rw [if_neg (mem_not_isEmpty _ c hbm3)]
      rcases hgo : DS.individualGo env c DS.usdQuotes 0 with ⟨o, k⟩
      rcases o with - | q
      · exact ⟨0, (individualPhase_sentinel_main env now _ _ c k hgo
          hbm3 hbm1).1, Or.inr rfl⟩
      · exact ⟨q, (individualPhase_found_main env now _ _ c q k hgo
          hbm3 hbm1).1,
          Or.inl (individualPhase_found_main env now _ _ c q k hgo
            hbm3 hbm1).2⟩
    · -- the fresh session map resolves `c` to `w`
      have hapw : lookupA (DS.get_all_usd_pairs env st now).1 c = some w := by
        rw [hap1]; exact hsl
      rcases batchMatch_hit_main (DS.get_all_usd_pairs env st now).1
          (DS.storePhase st.store now currencies).2
          (DS.storePhase st.store now currencies).1 c w hapw hpm2
        with ⟨hbm1, hbm2, hbm3⟩
      have hne : ¬ (DS.batchMatch (DS.get_all_usd_pairs env st now).1
          (DS.storePhase st.store now currencies).2
          (DS.storePhase st.store now currencies).1).2.1.isEmpty :=
        mem_not_isEmpty _ c hbm2
      have hall : ∀ kv ∈ (DS.batchMatch (DS.get_all_usd_pairs env st now).1
          (DS.storePhase st.store now currencies).2
          (DS.storePhase st.store now currencies).1).2.1.map
            (fun x => (x, (lookupA (DS.batchMatch
              (DS.get_all_usd_pairs env st now).1
              (DS.storePhase st.store now currencies).2
              (DS.storePhase st.store now currencies).1).1 x).getD 0)),
          kv.1 = c → kv.2 = w := by
        intro kv hkv
        rcases List.mem_map.mp hkv with ⟨x, hx, hxe⟩
        rw [← hxe]
        simp only []
        intro hk1
        rw [hk1, hbm1]
        rfl
      have hex : ∃ kv ∈ (DS.batchMatch (DS.get_all_usd_pairs env st now).1
          (DS.storePhase st.store now currencies).2
          (DS.storePhase st.store now currencies).1).2.1.map
            (fun x => (x, (lookupA (DS.batchMatch
              (DS.get_all_usd_pairs env st now).1
              (DS.storePhase st.store now currencies).2
              (DS.storePhase st.store now currencies).1).1 x).getD 0)),
          kv.1 = c :=
        ⟨_, List.mem_map.mpr ⟨c, hbm2, rfl⟩, rfl⟩
      by_cases h2 : (DS.batchMatch (DS.get_all_usd_pairs env st now).1
          (DS.storePhase st.store now currencies).2
          (DS.storePhase st.store now currencies).1).2.2.isEmpty
      · rw [if_pos h2]
        refine ⟨w, hbm1, Or.inl ?_⟩
        rw [if_neg hne]
        exact storeGet_storeSetBatch_mem_const c w now _ _ hall hex
      · rw [if_neg h2]
        refine ⟨w, (individualPhase_preserve_main env now _ _ c w hbm1).1,
          Or.inl ?_⟩
        refine ((individualPhase_preserve_main env now _ _ c w hbm1).2).trans ?_
        rw [if_neg hne]
        exact storeGet_storeSetBatch_mem_const c w now _ _ hall hex
  · -- the store hits `c` with `p`
    refine ⟨p, resolver_store_hit_prices env st now currencies c p hc hsg,
      Or.inl ?_⟩
    rcases storePhase_hit_main st.store now currencies c p hsg hc
      with ⟨hpm1, hpm2⟩
    simp only [DS.get_usd_ticker_prices]
    by_cases h1 : (DS.storePhase st.store now currencies).2.isEmpty
    · rw [if_pos h1]
      exact hsg
    · rw [if_neg h1]
      have hkeys : ∀ kv ∈ (DS.batchMatch (DS.get_all_usd_pairs env st now).1
          (DS.storePhase st.store now currencies).2
          (DS.storePhase st.store now currencies).1).2.1.map
            (fun x => (x, (lookupA (DS.batchMatch
              (DS.get_all_usd_pairs env st now).1
              (DS.storePhase st.store now currencies).2
              (DS.storePhase st.store now currencies).1).1 x).getD 0)),
          kv.1 ≠ c := by
        intro kv hkv
        rcases List.mem_map.mp hkv with ⟨x, hx, hxe⟩
        rw [← hxe]
        simp only []
        intro hk1
        exact hpm2 (hk1 ▸ batchMatch_newly_sub_main _ _ _ x hx)
      have hbm1 := (batchMatch_preserve_main
        (DS.get_all_usd_pairs env st now).1
        (DS.storePhase st.store now currencies).2
        (DS.storePhase st.store now currencies).1 c hpm2).trans hpm1
      have hst2 : DS.storeGet
          (if (DS.batchMatch (DS.get_all_usd_pairs env st now).1
              (DS.storePhase st.store now currencies).2
              (DS.storePhase st.store now currencies).1).2.1.isEmpty
           then (DS.get_all_usd_pairs env st now).2.1.store
           else DS.storeSetBatch (DS.get_all_usd_pairs env st now).2.1.store
             ((DS.batchMatch (DS.get_all_usd_pairs env st now).1
               (DS.storePhase st.store now currencies).2
               (DS.storePhase st.store now currencies).1).2.1.map
                (fun x => (x, (lookupA (DS.batchMatch
                  (DS.get_all_usd_pairs env st now).1
                  (DS.storePhase st.store now currencies).2
                  (DS.storePhase st.store now currencies).1).1 x).getD 0)))
             (now + 300)) c now = some p := by
        by_cases hne : (DS.batchMatch (DS.get_all_usd_pairs env st now).1
            (DS.storePhase st.store now currencies).2
            (DS.storePhase st.store now currencies).1).2.1.isEmpty
        · rw [if_pos hne, hap2]
          exact hsg
        · rw [if_neg hne,
            storeGet_storeSetBatch_not_mem c (now + 300) now _ _ hkeys, hap2]
          exact hsg
      by_cases h2 : (DS.batchMatch (DS.get_all_usd_pairs env st now).1
          (DS.storePhase st.store now currencies).2
          (DS.storePhase st.store now currencies).1).2.2.isEmpty
      · rw [if_pos h2]
        exact hst2
      · rw [if_neg h2]
        exact ((individualPhase_preserve_main env now _ _ c p hbm1).2).trans hst2

/-- C8 (amended).  With a fresh session cache, if the first resolver
call resolves every requested currency to a positive price (no `0.0`
sentinel), then an immediately following second call for the same
currency set performs zero network fetches and returns the same price
map.  (A currency that fell through to the terminal sentinel is looked
up individually again on every call — see the counterexample.) -/
theorem claim_c8_amended_idempotent (env : DS.DSEnv) (st : DS.DSState)
    (now : ℕ) (currencies : List String)
    (hfresh : DS.sessionFresh st now)
    (hres : ∀ c ∈ currencies, ∃ p,
      lookupA (DS.get_usd_ticker_prices env st now currencies).prices c
        = some p ∧ 0 < p) :
    (DS.get_usd_ticker_prices env
      (DS.get_usd_ticker_prices env st now currencies).state now
      currencies).fetches = 0
    ∧ ∀ c ∈ currencies,
        lookupA (DS.get_usd_ticker_prices env
          (DS.get_usd_ticker_prices env st now currencies).state now
          currencies).prices c
        = lookupA (DS.get_usd_ticker_prices env st now currencies).prices c := by
  set r1 := DS.get_usd_ticker_prices env st now currencies with hr1
  have hstore : ∀ c ∈ currencies,
      DS.storeGet r1.state.store c now = lookupA r1.prices c := by
    intro c hc
    rcases resolver_fresh_charact env st now currencies c hfresh hc
      with ⟨v, hv, hd⟩
    rcases hres c hc with ⟨p, hp, hpos⟩
    have hvp : v = p := by
      rw [← hr1] at hv
      rw [hv] at hp
      exact Option.some.inj hp
    subst hvp
    rcases hd with hd | hd
    · rw [← hr1] at hd hv
      rw [hd, hv]
    · rw [hd] at hpos
      exact absurd hpos (lt_irrefl 0)
  have hall : ∀ x ∈ currencies, (DS.storeGet r1.state.store x now).isSome := by
    intro x hx
    rw [hstore x hx]
    rcases hres x hx with ⟨p, hp, -⟩
    rw [hp]
    rfl
  have hmiss := storePhase_all_hit_main r1.state.store now currencies hall
  have hEmpty : (DS.storePhase r1.state.store now currencies).2.isEmpty = true := by
    rw [hmiss]
    rfl
  constructor
  · simp only [DS.get_usd_ticker_prices]
    rw [if_pos hEmpty]
  · intro c hc
    rcases hres c hc with ⟨p, hp, -⟩
    have hhit : DS.storeGet r1.state.store c now = some p := by
      rw [hstore c hc]
      exact hp
    have h1 := (storePhase_hit_main r1.state.store now currencies c p hhit hc).1
    simp only [DS.get_usd_ticker_prices]
    rw [if_pos hEmpty]
    rw [hp]
    exact h1

/-- Witness for the amended C8: `BTC` resolves from the fresh session
cache on the first call and from the durable store on the second,
which performs no network request. -/
theorem claim_c8_amended_idempotent_witness :
    (DS.get_usd_ticker_prices ⟨fun _ => none, fun _ => none⟩
      (DS.get_usd_ticker_prices ⟨fun _ => none, fun _ => none⟩
        ⟨[], [("BTC", 42)], 100⟩ 100 ["BTC"]).state 100 ["BTC"]).fetches = 0 :=
  (claim_c8_amended_idempotent ⟨fun _ => none, fun _ => none⟩
    ⟨[], [("BTC", 42)], 100⟩ 100 ["BTC"] (by decide)
    (fun c hc => by
      cases List.mem_singleton.mp hc
      exact ⟨42, by decide, by decide⟩)).1

/-- C8 (counterexample).  With a fresh session cache and the
unresolvable currency `XYZ`, the first call assigns the sentinel and
caches nothing for `XYZ`; the immediately following second call
repeats the three individual per-quote lookups, i.e. it performs 3
network fetches, not the 0 the claim states. -/
theorem claim_c8_counterexample :
    DS.sessionFresh ⟨[], [("BTC", 5)], 100⟩ 100
    ∧ (DS.get_usd_ticker_prices ⟨fun _ => none, fun _ => none⟩
        (DS.get_usd_ticker_prices ⟨fun _ => none, fun _ => none⟩
          ⟨[], [("BTC", 5)], 100⟩ 100 ["XYZ"]).state 100 ["XYZ"]).fetches = 3
    ∧ (DS.get_usd_ticker_prices ⟨fun _ => none, fun _ => none⟩
        (DS.get_usd_ticker_prices ⟨fun _ => none, fun _ => none⟩
          ⟨[], [("BTC", 5)], 100⟩ 100 ["XYZ"]).state 100 ["XYZ"]).fetches ≠ 0 := by
  refine ⟨by decide, by decide, by decide⟩
